import Mathlib

/-!
Shallow embedding of the ak-shell market-data ingestion pipeline
(src/collectors.py and src/database.py) and proofs about its
watermark/resume logic, empty-result handling, news deduplication,
batch upsert chunking, index-retry heuristic, retry wrapper,
dataframe normalizer and referential-integrity filtering.

Dates (YYYYMMDD strings in the source) are modelled as natural day
ordinals: the source compares dates as 8-digit strings, which is
order-isomorphic to comparing day ordinals, and "latest + 1 day"
becomes Nat successor.  Provider rows whose contents the control flow
never inspects are modelled by an opaque type parameter.
-/

namespace AkShell

/-! ### Watermark resolver
Embeds the resume check of `DailyQuoteCollector.collect_all_stocks_history`
(collectors.py lines 283-299): given the latest persisted trade date for a
stock (`db.get_latest_date`, `None` when the stock has no rows), the
declared start date and the optional declared end date, decide whether to
skip the stock or from which date to collect. -/

inductive ResumeDecision where
  | skip : ResumeDecision
  | collect : Nat → ResumeDecision
deriving DecidableEq, Repr

/-- `latest_date = db.get_latest_date(...)`; `if latest_date:` ... the
source skips when `end_date and latest_date >= end_date`, otherwise
computes `resume_start_date = latest + 1 day` and uses it only when it is
strictly after `start_date`; with no persisted date it collects from
`start_date`.  The duplicated else-arm mirrors the fall-through when
`end_date` is `None` (the skip test short-circuits on a missing end). -/
def resolveResumeStart (latest : Option Nat) (startDate : Nat)
    (endDate : Option Nat) : ResumeDecision :=
  match latest, endDate with
  | none, _ => ResumeDecision.collect startDate
  | some l, some e =>
      if e ≤ l then ResumeDecision.skip
      else if l + 1 > startDate then ResumeDecision.collect (l + 1)
      else ResumeDecision.collect startDate
  | some l, none =>
      if l + 1 > startDate then ResumeDecision.collect (l + 1)
      else ResumeDecision.collect startDate

/-! ### Upsert gateway
Embeds `Database.upsert_dataframe` and `Database.insert_dataframe`
(database.py lines 37-125): an empty frame returns success immediately;
otherwise the records are chunked into consecutive batches of at most
1000 rows and sent one storage call at a time; the first failing storage
call makes the whole call return failure and no further batch is sent,
while earlier batches stay committed.  The storage backend is modelled by
an oracle `batchOk` giving the outcome of the i-th storage call. -/

structure UpsertResult (α : Type) where
  ok : Bool
  calls : List (List α)
  committed : List α
deriving Repr

/-- `for i in range(0, len(records), batch_size): batch = records[i:i+batch_size]`
with `batch_size = 1000`. -/
def chunkBatches {α : Type} : List α → List (List α)
  | [] => []
  | x :: xs => (x :: xs).take 1000 :: chunkBatches ((x :: xs).drop 1000)
termination_by l => l.length
decreasing_by simp; omega

/-- The per-batch loop body: a successful storage call commits the batch
and continues; a failed call (`except` branch) returns `False` for the
whole call, so no later batch is attempted. -/
def runBatches {α : Type} (batchOk : Nat → Bool) :
    List (List α) → Nat → UpsertResult α
  | [], _ => ⟨true, [], []⟩
  | b :: bs, i =>
      if batchOk i then
        let r := runBatches batchOk bs (i + 1)
        ⟨r.ok, b :: r.calls, b ++ r.committed⟩
      else ⟨false, [b], []⟩

/-- `Database.upsert_dataframe`: `if df.empty: return True`, else chunk
and upsert batch by batch. -/
def upsert_dataframe {α : Type} (batchOk : Nat → Bool) (rows : List α) :
    UpsertResult α :=
  if rows.isEmpty then ⟨true, [], []⟩
  else runBatches batchOk (chunkBatches rows) 0

/-- `Database.insert_dataframe`: same control flow as the upsert gateway
(empty early-return, 1000-row batches, first failure aborts), with the
plain insert verb on the storage side. -/
def insert_dataframe {α : Type} (batchOk : Nat → Bool) (rows : List α) :
    UpsertResult α :=
  if rows.isEmpty then ⟨true, [], []⟩
  else runBatches batchOk (chunkBatches rows) 0

theorem chunkBatches_ne_nil_eq {α : Type} (rows : List α) (h : rows ≠ []) :
    chunkBatches rows = rows.take 1000 :: chunkBatches (rows.drop 1000) := by
  cases rows with
  | nil => exact absurd rfl h
  | cons x xs => rw [chunkBatches]

theorem chunkBatches_flatten {α : Type} (rows : List α) :
    (chunkBatches rows).flatten = rows := by
  induction rows using chunkBatches.induct with
  | case1 => simp [chunkBatches]
  | case2 x xs ih =>
      rw [chunkBatches, List.flatten_cons, ih, List.take_append_drop]

theorem chunkBatches_sizes {α : Type} (rows : List α) :
    ∀ b ∈ chunkBatches rows, b.length ≤ 1000 := by
  induction rows using chunkBatches.induct with
  | case1 => simp [chunkBatches]
  | case2 x xs ih =>
      rw [chunkBatches]
      intro b hb
      rcases List.mem_cons.mp hb with h | h
      · subst h
        simp
      · exact ih b h

/-! ### Resilient fetch
Embeds `BaseCollector.safe_request` (collectors.py lines 50-57): the
function is decorated with `@retry(tries=3, delay=5)`, so the wrapped
callable is attempted up to 3 times in total with a 5 second sleep before
each re-attempt; every exception is retried, and once the tries are
exhausted the last error propagates to the caller.  The flaky callable is
modelled by an oracle giving each attempt's outcome; the trace records
the number of attempts made and the sleeps performed between them. -/

structure FetchTrace (α : Type) where
  result : Except Unit α
  attemptsMade : Nat
  delays : List Nat
deriving Repr

/-- The retry loop of the `retry` decorator: with one try left the
outcome (success or error) is final; with more tries left an error
triggers a 5 second sleep and another attempt. -/
def retryGo {α : Type} (attempt : Nat → Except Unit α) :
    Nat → Nat → FetchTrace α
  | _, 0 => ⟨Except.error (), 0, []⟩
  | i, 1 =>
      match attempt i with
      | Except.ok a => ⟨Except.ok a, 1, []⟩
      | Except.error e => ⟨Except.error e, 1, []⟩
  | i, n + 2 =>
      match attempt i with
      | Except.ok a => ⟨Except.ok a, 1, []⟩
      | Except.error _ =>
          let t := retryGo attempt (i + 1) (n + 1)
          ⟨t.result, t.attemptsMade + 1, 5 :: t.delays⟩

/-- `safe_request`: `@retry(tries=3, delay=5)` around the callable. -/
def safe_request {α : Type} (attempt : Nat → Except Unit α) : FetchTrace α :=
  retryGo attempt 0 3

/-! ### Daily-quote history collector
Embeds `DailyQuoteCollector.collect_stock_history` (collectors.py lines
195-261) at the granularity its control flow inspects rows: the fetch
goes through `safe_request`; an exception escaping the retries is caught
by the enclosing `try` and the function returns `False` with nothing
written; an empty frame returns `True` with nothing written; otherwise
the renamed/cleaned rows (row-wise transformations that preserve the row
count, so rows stay opaque here) are sent to `db.upsert_dataframe` and
its success is returned.  The pair is (reported success, rows written to
storage). -/
def collect_stock_history {α : Type} (attempt : Nat → Except Unit (List α))
    (batchOk : Nat → Bool) : Bool × Nat :=
  match (safe_request attempt).result with
  | Except.error _ => (false, 0)
  | Except.ok rows =>
      if rows.isEmpty then (true, 0)
      else
        let r := upsert_dataframe batchOk rows
        (r.ok, r.committed.length)

/-! ### Hot-rank collector
Embeds `StockHotRankCollector.collect_hot_rank` (collectors.py lines
689-750): an empty snapshot feed logs a warning and returns `False`;
otherwise the mapped/cleaned rows (count-preserving, opaque here) are
upserted and that success is returned. -/
def collect_hot_rank {α : Type} (rows : List α) (batchOk : Nat → Bool) :
    Bool × Nat :=
  if rows.isEmpty then (false, 0)
  else
    let r := upsert_dataframe batchOk rows
    (r.ok, r.committed.length)

/-! ### News collector
Embeds `StockNewsCollector.collect_news` (collectors.py lines 1051-1169).
A feed row is modelled by its URL cell (the only field the dedup control
flow inspects).  The scan keeps the in-run state of the Python loop:
`processed_urls`, the admitted rows in order, `new_news_count`,
`duplicate_count`, and the number of loop iterations executed.  The
persisted store is the set of URLs already in the `stock_news` table
(the per-row point lookup `eq('url', url)`). -/

/-- Python's `str.strip()`: remove whitespace from both ends (defined on
the character list so that it evaluates inside proofs). -/
def pyStrip (s : String) : String :=
  String.mk (((s.data.dropWhile Char.isWhitespace).reverse.dropWhile
    Char.isWhitespace).reverse)

structure NewsScanState where
  processedUrls : List String
  admitted : List String
  newCount : Nat
  dupCount : Nat
  scanned : Nat
deriving DecidableEq, Repr

def initNewsScanState : NewsScanState := ⟨[], [], 0, 0, 0⟩

/-- One iteration of the news loop: strip the URL and skip blank ones;
count a duplicate when the URL was already processed in this run or
already exists in the store; otherwise admit the row, and only then test
the early-exit condition `duplicate_count > 100 and new_news_count == 0`
(the returned flag says whether the loop breaks after this row). -/
def newsStep (persisted : List String) (st : NewsScanState) (row : String) :
    NewsScanState × Bool :=
  let url := pyStrip row
  if url = "" then
    ({ st with scanned := st.scanned + 1 }, false)
  else if url ∈ st.processedUrls then
    ({ st with dupCount := st.dupCount + 1, scanned := st.scanned + 1 }, false)
  else if url ∈ persisted then
    ({ st with dupCount := st.dupCount + 1, scanned := st.scanned + 1 }, false)
  else
    let st1 : NewsScanState :=
      { st with processedUrls := url :: st.processedUrls,
                admitted := st.admitted ++ [url],
                newCount := st.newCount + 1,
                scanned := st.scanned + 1 }
    (st1, decide (st1.dupCount > 100 ∧ st1.newCount = 0))

/-- The `for idx, (index, row) in enumerate(news_df.iterrows())` loop. -/
def newsScan (persisted : List String) :
    List String → NewsScanState → NewsScanState
  | [], st => st
  | r :: rs, st =>
      let p := newsStep persisted st r
      if p.2 then p.1 else newsScan persisted rs p.1

/-- The scan part of `collect_news`: the feed is truncated to the newest
`max_process_count` rows (`news_df.head(max_process_count)`) before the
dedup loop runs. -/
def collect_news_run (persisted : List String) (maxProcessCount : Nat)
    (feed : List String) : NewsScanState :=
  newsScan persisted (feed.take maxProcessCount) initNewsScanState

/-- `collect_news`: an empty provider frame returns `False`; a scan that
admitted nothing returns `False` ("no valid news data"); otherwise the
admitted rows are upserted on the `url` conflict key.  Returns the
reported success and the admitted URLs in admission order. -/
def collect_news (persisted : List String) (maxProcessCount : Nat)
    (feed : List String) : Bool × List String :=
  if feed.isEmpty then (false, [])
  else
    let st := collect_news_run persisted maxProcessCount feed
    if st.admitted.isEmpty then (false, [])
    else (true, st.admitted)

/-! ### Index collector
Embeds `IndexDataCollector.collect_all_indexes_history`,
`collect_index_history_with_data_check` and
`_should_retry_index_collection` (collectors.py lines 443-598).  Each of
the five tracked indices is modelled by the outcome of its fetch after
the requested date-range filter (`none` when the fetch raised, otherwise
the surviving rows).  Wall-clock inputs are the weekday (0 = Monday) and
the hour of day, and a flag saying whether the requested start date is
today. -/

structure IndexStepResult where
  success : Bool
  hasData : Bool
  written : Nat
deriving DecidableEq, Repr

structure IndexRunOutcome where
  success : Bool
  written : Nat
  retryScheduled : Bool
deriving DecidableEq, Repr

/-- `collect_index_history_with_data_check`: a raised fetch gives
`{'success': False, 'has_data': False}`; an empty (or empty after the
date filter) frame gives success without data; otherwise the upsert
outcome decides success and `has_data` is true. -/
def collect_index_history_with_data_check {α : Type}
    (fetched : Option (List α)) (upsertOk : Bool) : IndexStepResult :=
  match fetched with
  | none => ⟨false, false, 0⟩
  | some rows =>
      if rows.isEmpty then ⟨true, false, 0⟩
      else ⟨upsertOk, true, if upsertOk then rows.length else 0⟩

/-- `_should_retry_index_collection`: never on weekends (weekday ≥ 5),
and otherwise only when the current hour lies in 18..21. -/
def should_retry_index_collection (weekday hour : Nat) : Bool :=
  if weekday ≥ 5 then false
  else if 18 ≤ hour ∧ hour ≤ 21 then true
  else false

/-- `collect_all_indexes_history`: run the per-index step over the
tracked indices, and when every index succeeded but none had data, the
requested day is today and the hour is before 20, consult
`_should_retry_index_collection`; a scheduled background retry makes the
call return `True` immediately.  Otherwise the run reports success iff
at least one index step succeeded. -/
def collect_all_indexes_history {α : Type}
    (fetches : List (Option (List α))) (upsertOk : Nat → Bool)
    (isToday : Bool) (weekday hour : Nat) : IndexRunOutcome :=
  let results := (fetches.enum).map
    (fun p => collect_index_history_with_data_check p.2 (upsertOk p.1))
  let successCount := (results.filter (fun r => r.success)).length
  let hasDataCount := (results.filter (fun r => r.hasData)).length
  let written := (results.map (fun r => r.written)).sum
  if hasDataCount = 0 ∧ successCount = fetches.length ∧ isToday = true
      ∧ hour < 20 ∧ should_retry_index_collection weekday hour = true then
    ⟨true, written, true⟩
  else
    ⟨decide (successCount > 0), written, false⟩

/-! ### Fund-flow-rank collector
Embeds one indicator pass of
`StockFundFlowRankCollector.collect_fund_flow_rank` (collectors.py lines
901-1035).  A provider row is modelled by its stock code together with a
flag saying whether its key fields (`stock_code`, `stock_name`) are
non-null; the numeric payload is never inspected by the filtering
control flow.  `validStocks` is `db.get_stock_list()`, the codes present
in `stock_basic`. -/

structure FundFlowRow where
  stockCode : String
  keyFieldsPresent : Bool
deriving DecidableEq, Repr

/-- `df.drop_duplicates(subset=['stock_code','indicator','trade_date'],
keep='first')`: within one indicator pass the indicator and trade date
are constant, so the key degenerates to the stock code. -/
def dedupByCode : List FundFlowRow → List String → List FundFlowRow
  | [], _ => []
  | r :: rs, seen =>
      if r.stockCode ∈ seen then dedupByCode rs seen
      else r :: dedupByCode rs (r.stockCode :: seen)

/-- The row pipeline of one indicator pass, from the fetched frame to the
rows handed to `db.upsert_dataframe`: drop rows with null key fields
(`dropna(subset=['stock_code','stock_name'])`), keep only codes present
in `stock_basic` (`df['stock_code'].isin(valid_stocks)`), then
de-duplicate on the conflict key keeping the first occurrence. -/
def fund_flow_rank_upsert_rows (validStocks : List String)
    (rows : List FundFlowRow) : List FundFlowRow :=
  let kept := rows.filter (fun r => r.keyFieldsPresent)
  let kept := kept.filter (fun r => r.stockCode ∈ validStocks)
  dedupByCode kept []

/-- The indicator loop of `collect_fund_flow_rank`: each lookback
indicator is independently fetched, filtered and upserted; this returns,
per indicator, the rows its pass hands to the upsert gateway. -/
def collect_fund_flow_rank (validStocks : List String)
    (fetch : String → List FundFlowRow) (indicators : List String) :
    List (String × List FundFlowRow) :=
  indicators.map (fun ind => (ind, fund_flow_rank_upsert_rows validStocks (fetch ind)))

/-! ### Normalizer
Embeds `BaseCollector.clean_dataframe` (collectors.py lines 59-72).  A
cell is a finite number (floats stand in as integers here; their exact
values are never branched on), positive or negative infinity, the float
NaN, a string, or a null; a column carries the pandas dtype distinction
the source branches on (`select_dtypes(include=['object'])`).  The
clean-up first replaces ±infinity by null everywhere, then for every
object column casts each cell to its Python string form, strips it, and
replaces the sentinels 'nan', 'None' and the empty string by null. -/

inductive Cell where
  | num : Int → Cell
  | inf : Cell
  | negInf : Cell
  | nan : Cell
  | str : String → Cell
  | null : Cell
deriving DecidableEq, Repr

structure Column where
  isObject : Bool
  cells : List Cell
deriving DecidableEq, Repr

/-- `astype(str)`: the Python string form of a cell (`str(None)` is
'None', `str(float('nan'))` is 'nan'). -/
def cellStr : Cell → String
  | Cell.num z => toString z
  | Cell.inf => "inf"
  | Cell.negInf => "-inf"
  | Cell.nan => "nan"
  | Cell.str s => s
  | Cell.null => "None"

/-- `df.replace([float('inf'), float('-inf')], None)` on one cell. -/
def replaceInf : Cell → Cell
  | Cell.inf => Cell.null
  | Cell.negInf => Cell.null
  | c => c

/-- One object-column cell: `astype(str).str.strip()` followed by
`replace(['nan', 'None', ''], None)`. -/
def cleanObjectCell (c : Cell) : Cell :=
  if pyStrip (cellStr c) = "nan" ∨ pyStrip (cellStr c) = "None"
      ∨ pyStrip (cellStr c) = "" then Cell.null
  else Cell.str (pyStrip (cellStr c))

/-- `clean_dataframe`: an empty frame is returned unchanged; otherwise
infinities are nulled in every column and the object columns get the
string clean-up. -/
def clean_dataframe (cols : List Column) : List Column :=
  if cols.all (fun c => c.cells.isEmpty) then cols
  else cols.map (fun col =>
    let cells := col.cells.map replaceInf
    if col.isObject then ⟨true, cells.map cleanObjectCell⟩
    else ⟨false, cells⟩)

def isStrCell : Cell → Bool
  | Cell.str _ => true
  | _ => false

/-- Well-formed frame: a column whose dtype is not `object` holds no
string cells (in pandas a column containing strings has object dtype). -/
def WellFormedFrame (cols : List Column) : Prop :=
  ∀ col ∈ cols, col.isObject = false →
    ∀ c ∈ col.cells, isStrCell c = false

/-! ## Claims -/

/-- C1: with a persisted latest date `L` and a requested window `[S, E]`
under resume, the history collector skips the stock iff `L ≥ E`,
otherwise starts from `max (L + 1) S`; with no persisted date it
collects the full window from `S`; and any resumed start is strictly
after `L`, so no day `≤ L` is ever re-requested. -/
theorem history_resume_watermark (L S E : Nat) :
    (resolveResumeStart (some L) S (some E) = ResumeDecision.skip ↔ E ≤ L)
    ∧ (L < E → resolveResumeStart (some L) S (some E)
        = ResumeDecision.collect (max (L + 1) S))
    ∧ resolveResumeStart none S (some E) = ResumeDecision.collect S
    ∧ (∀ s, resolveResumeStart (some L) S (some E) = ResumeDecision.collect s
        → L < s) := by
  refine ⟨?_, ?_, rfl, ?_⟩
  · simp only [resolveResumeStart]
    split_ifs with h1 h2
    · simp [h1]
    · simp
      omega
    · simp
      omega
  · intro hLE
    simp only [resolveResumeStart]
    split_ifs with h1 h2
    · exact absurd h1 (by omega)
    · congr 1
      omega
    · congr 1
      omega
  · intro s hs
    simp only [resolveResumeStart] at hs
    split_ifs at hs with h1 h2
    · injection hs with h
      omega
    · injection hs with h
      omega

theorem history_resume_watermark_witness :
    5 < 10 ∧ resolveResumeStart (some 5) 3 (some 10) = ResumeDecision.collect 6 := by
  have h := (history_resume_watermark 5 3 10).2.1 (by norm_num)
  exact ⟨by norm_num, by simpa using h⟩

/-- C10: calling the upsert gateway or the plain insert gateway with an
empty row set reports success while performing zero storage calls and
committing nothing, leaving the storage state unchanged. -/
theorem empty_frame_gateways_noop {α : Type} (batchOk : Nat → Bool) :
    upsert_dataframe batchOk ([] : List α) = ⟨true, [], []⟩
    ∧ insert_dataframe batchOk ([] : List α) = ⟨true, [], []⟩ :=
  ⟨rfl, rfl⟩

/-- C2 counterexample: the hot-rank collector does not report success on
a zero-row fetch — it returns failure, refuting the claim that every
collector treats an empty provider result as success. -/
theorem empty_fetch_hot_rank_fails :
    collect_hot_rank ([] : List Unit) (fun _ => true) = (false, 0) := rfl

/-- C2 (amended): when the provider fetch succeeds with zero rows, the
daily-quote history collector reports success with zero rows written,
while the hot-rank and news collectors report failure on an empty
fetch. -/
theorem empty_fetch_outcomes {α : Type}
    (attempt : Nat → Except Unit (List α)) (h0 : attempt 0 = Except.ok [])
    (batchOk : Nat → Bool) (persisted : List String) (cap : Nat) :
    collect_stock_history attempt batchOk = (true, 0)
    ∧ collect_hot_rank ([] : List α) batchOk = (false, 0)
    ∧ collect_news persisted cap [] = (false, []) := by
  refine ⟨?_, rfl, rfl⟩
  simp [collect_stock_history, safe_request, retryGo, h0]

theorem empty_fetch_outcomes_witness :
    collect_stock_history (fun _ => Except.ok ([] : List Nat)) (fun _ => true)
      = (true, 0)
    ∧ collect_hot_rank ([] : List Nat) (fun _ => true) = (false, 0)
    ∧ collect_news ["u"] 10 [] = (false, []) :=
  empty_fetch_outcomes (fun _ => Except.ok []) rfl (fun _ => true) ["u"] 10

/-- C5: the upsert gateway chunks any row set into consecutive batches of
at most 1000 rows whose concatenation is the input; on 2500 rows it makes
exactly 3 storage calls of sizes 1000/1000/500 and commits everything,
and when the 2nd of the 3 calls fails the whole call reports failure,
exactly the first 1000 rows are committed, and the 3rd batch is never
sent (only 2 storage calls occur). -/
theorem upsert_batch_chunking {α : Type} (rows : List α)
    (h : rows.length = 2500) :
    (∀ r : List α, ∀ b ∈ chunkBatches r, b.length ≤ 1000)
    ∧ (∀ r : List α, (chunkBatches r).flatten = r)
    ∧ upsert_dataframe (fun _ => true) rows
        = ⟨true, chunkBatches rows, rows⟩
    ∧ (upsert_dataframe (fun _ => true) rows).calls.map List.length
        = [1000, 1000, 500]
    ∧ upsert_dataframe (fun i => decide (i = 0)) rows
        = ⟨false, [rows.take 1000, (rows.drop 1000).take 1000], rows.take 1000⟩ := by
  have hne : rows ≠ [] := by
    intro hh
    rw [hh] at h
    simp at h
  have hd1 : rows.drop 1000 ≠ [] := by
    intro hh
    have := congrArg List.length hh
    simp [h] at this
  have hd2 : rows.drop 2000 ≠ [] := by
    intro hh
    have := congrArg List.length hh
    simp [h] at this
  have hdd : (rows.drop 1000).drop 1000 = rows.drop 2000 := by
    rw [List.drop_drop]
  have hd3 : (rows.drop 2000).drop 1000 = [] := by
    apply List.drop_eq_nil_of_le
    simp [h]
  have ht3 : (rows.drop 2000).take 1000 = rows.drop 2000 := by
    apply List.take_of_length_le
    simp [h]
  have hchunk : chunkBatches rows
      = [rows.take 1000, (rows.drop 1000).take 1000, rows.drop 2000] := by
    rw [chunkBatches_ne_nil_eq rows hne, chunkBatches_ne_nil_eq _ hd1, hdd,
        chunkBatches_ne_nil_eq _ hd2, ht3, hd3]
    simp [chunkBatches]
  have hflat : rows.take 1000 ++ ((rows.drop 1000).take 1000
      ++ (rows.drop 2000 ++ [])) = rows := by
    have := chunkBatches_flatten rows
    rw [hchunk] at this
    simpa using this
  refine ⟨fun r => chunkBatches_sizes r, fun r => chunkBatches_flatten r, ?_, ?_, ?_⟩
  · simp only [upsert_dataframe, List.isEmpty_eq_true, hne, if_false, hchunk,
      runBatches, if_pos]
    simp
    simpa using hflat
  · simp only [upsert_dataframe, List.isEmpty_eq_true, hne, if_false, hchunk,
      runBatches]
    simp [List.length_take, List.length_drop, h]
  · simp only [upsert_dataframe, List.isEmpty_eq_true, hne, if_false, hchunk,
      runBatches]
    simp

theorem upsert_batch_chunking_witness :
    (List.range 2500).length = 2500
    ∧ (upsert_dataframe (fun _ => true) (List.range 2500)).calls.map List.length
        = [1000, 1000, 500] :=
  ⟨by simp, (upsert_batch_chunking (List.range 2500) (by simp)).2.2.2.1⟩

/-- C7: the resilient fetch wrapper makes up to 3 attempts with a fixed
5-second sleep between attempts and treats any exception as retryable:
when all 3 attempts fail, exactly 3 attempts are made with two 5-second
delays and the error propagates, whereupon the history collector reports
the whole per-stock step as failed with zero rows written; when an
attempt fails and the next succeeds, the wrapper returns that success
after one 5-second delay. -/
theorem safe_request_retry_policy {α : Type}
    (bad mixed : Nat → Except Unit (List α)) (rows : List α)
    (hbad : ∀ i < 3, bad i = Except.error ())
    (hm0 : mixed 0 = Except.error ()) (hm1 : mixed 1 = Except.ok rows) :
    safe_request bad = ⟨Except.error (), 3, [5, 5]⟩
    ∧ (∀ batchOk, collect_stock_history bad batchOk = (false, 0))
    ∧ safe_request mixed = ⟨Except.ok rows, 2, [5]⟩ := by
  have h0 := hbad 0 (by norm_num)
  have h1 := hbad 1 (by norm_num)
  have h2 := hbad 2 (by norm_num)
  have hbadreq : safe_request bad = ⟨Except.error (), 3, [5, 5]⟩ := by
    simp [safe_request, retryGo, h0, h1, h2]
  refine ⟨hbadreq, ?_, ?_⟩
  · intro batchOk
    simp [collect_stock_history, hbadreq]
  · simp [safe_request, retryGo, hm0, hm1]

theorem safe_request_retry_policy_witness :
    safe_request (fun _ => (Except.error () : Except Unit (List Nat)))
      = ⟨Except.error (), 3, [5, 5]⟩
    ∧ collect_stock_history (fun _ => (Except.error () : Except Unit (List Nat)))
        (fun _ => true) = (false, 0)
    ∧ safe_request (fun i => if i = 0 then (Except.error () : Except Unit (List Nat))
        else Except.ok [7]) = ⟨Except.ok [7], 2, [5]⟩ := by
  have h := safe_request_retry_policy (α := Nat)
    (fun _ => Except.error ()) (fun i => if i = 0 then Except.error () else Except.ok [7])
    [7] (fun _ _ => rfl) rfl rfl
  exact ⟨h.1, h.2.1 (fun _ => true), h.2.2⟩

/-- C6 counterexample: on a weekday morning (hour 10, before the 20:00
cutoff) with all 5 tracked indices returning zero rows for today, the
run reports success with zero rows but schedules no retry, because
`_should_retry_index_collection` additionally requires the hour to lie
in 18..21 — refuting the claim that any weekday run before 20:00
schedules a delayed retry. -/
theorem index_no_retry_morning :
    collect_all_indexes_history (List.replicate 5 (some ([] : List Unit)))
      (fun _ => true) true 0 10 = ⟨true, 0, false⟩ := by decide

/-- C6 (amended): for a same-day index run on a weekday in which all 5
tracked indices return zero rows, the run reports overall success with
zero data rows written at every hour of the day, and it schedules the
one-shot delayed background retry precisely when the hour is at least 18
and before the 20:00 cutoff. -/
theorem index_same_day_empty_retry {α : Type} (upsertOk : Nat → Bool)
    (weekday hour : Nat) (hw : weekday < 5) :
    (collect_all_indexes_history (List.replicate 5 (some ([] : List α)))
        upsertOk true weekday hour).success = true
    ∧ (collect_all_indexes_history (List.replicate 5 (some ([] : List α)))
        upsertOk true weekday hour).written = 0
    ∧ ((collect_all_indexes_history (List.replicate 5 (some ([] : List α)))
        upsertOk true weekday hour).retryScheduled = true
        ↔ 18 ≤ hour ∧ hour < 20) := by
  by_cases h : 18 ≤ hour ∧ hour < 20
  · have hr : should_retry_index_collection weekday hour = true := by
      unfold should_retry_index_collection
      split_ifs with h1 h2
      · omega
      · rfl
      · omega
    have hrun : collect_all_indexes_history (List.replicate 5 (some ([] : List α)))
        upsertOk true weekday hour = ⟨true, 0, true⟩ := by
      simp [collect_all_indexes_history, collect_index_history_with_data_check,
        List.replicate, List.enum, List.enumFrom, hr, h.2]
    rw [hrun]
    simp [h]
  · have hrun : collect_all_indexes_history (List.replicate 5 (some ([] : List α)))
        upsertOk true weekday hour = ⟨true, 0, false⟩ := by
      by_cases h20 : hour < 20
      · have hr : should_retry_index_collection weekday hour = false := by
          unfold should_retry_index_collection
          split_ifs with h1 h2
          · rfl
          · exact absurd ⟨h2.1, h20⟩ h
          · rfl
        simp [collect_all_indexes_history, collect_index_history_with_data_check,
          List.replicate, List.enum, List.enumFrom, hr]
      · simp [collect_all_indexes_history, collect_index_history_with_data_check,
          List.replicate, List.enum, List.enumFrom, h20]
    rw [hrun]
    simp [h]

theorem index_same_day_empty_retry_witness :
    ((collect_all_indexes_history (List.replicate 5 (some ([] : List Nat)))
        (fun _ => true) true 0 18).success = true
      ∧ (collect_all_indexes_history (List.replicate 5 (some ([] : List Nat)))
        (fun _ => true) true 0 18).retryScheduled = true)
    ∧ (collect_all_indexes_history (List.replicate 5 (some ([] : List Nat)))
        (fun _ => true) true 0 14).retryScheduled = false := by
  have h18 := index_same_day_empty_retry (α := Nat) (fun _ => true) 0 18 (by norm_num)
  have h14 := index_same_day_empty_retry (α := Nat) (fun _ => true) 0 14 (by norm_num)
  refine ⟨⟨h18.1, h18.2.2.mpr ⟨by norm_num, by norm_num⟩⟩, ?_⟩
  by_contra hc
  rw [Bool.not_eq_false] at hc
  have := h14.2.2.mp hc
  omega

theorem cleanObjectCell_spec (c : Cell) :
    cleanObjectCell c = Cell.null
    ∨ ∃ s, cleanObjectCell c = Cell.str s
        ∧ s ≠ "" ∧ s ≠ "nan" ∧ s ≠ "None" := by
  unfold cleanObjectCell
  split_ifs with h
  · exact Or.inl rfl
  · push_neg at h
    exact Or.inr ⟨pyStrip (cellStr c), rfl, h.2.2, h.1, h.2.1⟩

theorem replaceInf_spec (c : Cell) :
    replaceInf c ≠ Cell.inf ∧ replaceInf c ≠ Cell.negInf
    ∧ (isStrCell c = false → isStrCell (replaceInf c) = false) := by
  cases c <;> simp [replaceInf, isStrCell]

/-- C8: the normalizer is a total function on any input frame — including
frames holding malformed numeric strings, infinities, empty strings or
'nan'/'None' cells — and in its output no cell is ±infinity and no
string cell is empty, 'nan' or 'None' after stripping: each such cell
has been replaced by null. -/
theorem clean_dataframe_nulls_invalid (cols : List Column)
    (hwf : WellFormedFrame cols) (col : Column)
    (hcol : col ∈ clean_dataframe cols) (c : Cell) (hc : c ∈ col.cells) :
    c ≠ Cell.inf ∧ c ≠ Cell.negInf
    ∧ (∀ s, c = Cell.str s → s ≠ "" ∧ s ≠ "nan" ∧ s ≠ "None") := by
  unfold clean_dataframe at hcol
  split_ifs at hcol with hempty
  · exfalso
    rw [List.all_eq_true] at hempty
    have h1 := hempty col hcol
    rw [List.isEmpty_eq_true] at h1
    rw [h1] at hc
    exact List.not_mem_nil c hc
  · obtain ⟨col0, hcol0, hmap⟩ := List.mem_map.mp hcol
    by_cases hobj : col0.isObject
    · rw [if_pos hobj] at hmap
      rw [← hmap] at hc
      simp only [List.mem_map] at hc
      obtain ⟨c1, _, hc1⟩ := hc
      rcases cleanObjectCell_spec c1 with h | ⟨s, hs, hs1, hs2, hs3⟩
      · rw [h] at hc1
        rw [← hc1]
        refine ⟨by simp, by simp, ?_⟩
        intro t ht
        exact Cell.noConfusion ht
      · rw [hs] at hc1
        rw [← hc1]
        refine ⟨by simp, by simp, ?_⟩
        intro t ht
        injection ht with h
        rw [← h]
        exact ⟨hs1, hs2, hs3⟩
    · rw [if_neg hobj] at hmap
      rw [← hmap] at hc
      simp only [List.mem_map] at hc
      obtain ⟨c1, hc1mem, hc1⟩ := hc
      have hnostr := hwf col0 hcol0 (Bool.eq_false_iff.mpr hobj) c1 hc1mem
      have hspec := replaceInf_spec c1
      rw [hc1] at hspec
      refine ⟨hspec.1, hspec.2.1, ?_⟩
      intro t ht
      have := hspec.2.2 hnostr
      rw [ht] at this
      exact absurd this (by simp [isStrCell])

theorem clean_dataframe_nulls_invalid_witness :
    Cell.str "x" ≠ Cell.inf ∧ "x" ≠ "" := by
  have h := clean_dataframe_nulls_invalid
    [⟨true, [Cell.str " x ", Cell.inf]⟩, ⟨false, [Cell.num 1, Cell.negInf]⟩]
    (by unfold WellFormedFrame; decide) ⟨true, [Cell.str "x", Cell.null]⟩
    (by decide) (Cell.str "x") (by decide)
  exact ⟨h.1, (h.2.2 "x" rfl).1⟩

theorem mem_dedupByCode (r : FundFlowRow) :
    ∀ (l : List FundFlowRow) (seen : List String),
      r ∈ dedupByCode l seen → r ∈ l := by
  intro l
  induction l with
  | nil => intro seen h; exact absurd h (List.not_mem_nil r)
  | cons a l ih =>
      intro seen h
      unfold dedupByCode at h
      split_ifs at h with hs
      · exact List.mem_cons_of_mem a (ih seen h)
      · rcases List.mem_cons.mp h with h | h
        · exact h ▸ List.mem_cons_self a l
        · exact List.mem_cons_of_mem a (ih (a.stockCode :: seen) h)

/-- C9: in every fund-flow-rank collection pass and for every lookback
indicator, every row handed to the upsert gateway has a stock code that
is present in the StockBasic code list at collection time; rows whose
code is absent are dropped before upsert. -/
theorem fund_flow_rank_referential_integrity
    (validStocks : List String) (fetch : String → List FundFlowRow)
    (indicators : List String) (ind : String) (rowsOut : List FundFlowRow)
    (hmem : (ind, rowsOut) ∈ collect_fund_flow_rank validStocks fetch indicators)
    (r : FundFlowRow) (hr : r ∈ rowsOut) :
    r.stockCode ∈ validStocks := by
  obtain ⟨ind0, _, heq⟩ := List.mem_map.mp hmem
  have hrows : rowsOut = fund_flow_rank_upsert_rows validStocks (fetch ind0) :=
    (congrArg Prod.snd heq).symm
  rw [hrows] at hr
  unfold fund_flow_rank_upsert_rows at hr
  have hr2 := mem_dedupByCode r _ [] hr
  have := List.of_mem_filter hr2
  simpa using this

theorem fund_flow_rank_referential_integrity_witness :
    (FundFlowRow.mk "600000" true).stockCode ∈ ["600000"] :=
  fund_flow_rank_referential_integrity ["600000"]
    (fun _ => [⟨"600000", true⟩, ⟨"000001", true⟩]) ["today"] "today"
    (fund_flow_rank_upsert_rows ["600000"] [⟨"600000", true⟩, ⟨"000001", true⟩])
    (by simp [collect_fund_flow_rank]) ⟨"600000", true⟩ (by decide)

theorem newsStep_no_break (persisted : List String) (st : NewsScanState)
    (row : String) : (newsStep persisted st row).2 = false := by
  simp only [newsStep]
  split_ifs <;> simp

theorem newsScan_cons (persisted : List String) (r : String)
    (rs : List String) (st : NewsScanState) :
    newsScan persisted (r :: rs) st
      = newsScan persisted rs (newsStep persisted st r).1 := by
  simp [newsScan, newsStep_no_break]

theorem newsStep_scanned (persisted : List String) (st : NewsScanState)
    (row : String) : (newsStep persisted st row).1.scanned = st.scanned + 1 := by
  simp only [newsStep]
  split_ifs <;> rfl

theorem newsScan_scanned (persisted feed : List String) :
    ∀ st : NewsScanState,
      (newsScan persisted feed st).scanned = st.scanned + feed.length := by
  induction feed with
  | nil => intro st; simp [newsScan]
  | cons r rs ih =>
      intro st
      rw [newsScan_cons, ih, newsStep_scanned]
      simp
      omega

theorem newsStep_reject (persisted : List String) (st : NewsScanState)
    (row : String)
    (h : pyStrip row = "" ∨ pyStrip row ∈ st.processedUrls
        ∨ pyStrip row ∈ persisted) :
    (newsStep persisted st row).1.admitted = st.admitted
    ∧ (newsStep persisted st row).1.processedUrls = st.processedUrls := by
  simp only [newsStep]
  split_ifs with h1 h2 h3
  · exact ⟨rfl, rfl⟩
  · exact ⟨rfl, rfl⟩
  · exact ⟨rfl, rfl⟩
  · rcases h with h | h | h
    · exact absurd h h1
    · exact absurd h h2
    · exact absurd h h3

theorem newsStep_admit (persisted : List String) (st : NewsScanState)
    (row : String) (h1 : pyStrip row ≠ "")
    (h2 : pyStrip row ∉ st.processedUrls) (h3 : pyStrip row ∉ persisted) :
    (newsStep persisted st row).1.admitted = st.admitted ++ [pyStrip row]
    ∧ (newsStep persisted st row).1.processedUrls
        = pyStrip row :: st.processedUrls := by
  simp [newsStep, h1, h2, h3]

theorem newsScan_reject_phase (persisted : List String) :
    ∀ (ks : List String) (st : NewsScanState),
      (∀ u ∈ ks, pyStrip u ∈ persisted) →
      (newsScan persisted ks st).admitted = st.admitted
      ∧ (newsScan persisted ks st).processedUrls = st.processedUrls := by
  intro ks
  induction ks with
  | nil => intro st _; exact ⟨rfl, rfl⟩
  | cons u ks ih =>
      intro st hks
      rw [newsScan_cons]
      have hstep := newsStep_reject persisted st u
        (Or.inr (Or.inr (hks u (List.mem_cons_self u ks))))
      have hrest := ih (newsStep persisted st u).1
        (fun v hv => hks v (List.mem_cons_of_mem u hv))
      exact ⟨by rw [hrest.1, hstep.1], by rw [hrest.2, hstep.2]⟩

theorem newsScan_admit_phase (persisted : List String) :
    ∀ (ms : List String) (st : NewsScanState),
      (∀ u ∈ ms, pyStrip u ∉ persisted ∧ pyStrip u ≠ "") →
      (∀ u ∈ ms, pyStrip u ∉ st.processedUrls) →
      (ms.map pyStrip).Nodup →
      (newsScan persisted ms st).admitted = st.admitted ++ ms.map pyStrip := by
  intro ms
  induction ms with
  | nil => intro st _ _ _; simp [newsScan]
  | cons u ms ih =>
      intro st hfresh hproc hnodup
      rw [newsScan_cons]
      have hu := hfresh u (List.mem_cons_self u ms)
      have hpu := hproc u (List.mem_cons_self u ms)
      have hstep := newsStep_admit persisted st u hu.2 hpu hu.1
      rw [List.map_cons, List.nodup_cons] at hnodup
      have hrest := ih (newsStep persisted st u).1
        (fun v hv => hfresh v (List.mem_cons_of_mem u hv))
        (fun v hv => by
          rw [hstep.2]
          intro hmem
          rcases List.mem_cons.mp hmem with h | h
          · exact hnodup.1 (h ▸ List.mem_map_of_mem pyStrip hv)
          · exact hproc v (List.mem_cons_of_mem u hv) h)
        hnodup.2
      rw [hrest, hstep.1]
      simp

theorem newsScan_admitted_nodup (persisted : List String) :
    ∀ (feed : List String) (st : NewsScanState),
      st.admitted.Nodup → (∀ u ∈ st.admitted, u ∈ st.processedUrls) →
      (newsScan persisted feed st).admitted.Nodup := by
  intro feed
  induction feed with
  | nil => intro st h _; exact h
  | cons r rs ih =>
      intro st hnd hsub
      rw [newsScan_cons]
      by_cases h1 : pyStrip r = ""
      · have hstep := newsStep_reject persisted st r (Or.inl h1)
        exact ih _ (hstep.1 ▸ hnd)
          (fun u hu => hstep.2 ▸ hsub u (hstep.1 ▸ hu))
      by_cases h2 : pyStrip r ∈ st.processedUrls
      · have hstep := newsStep_reject persisted st r (Or.inr (Or.inl h2))
        exact ih _ (hstep.1 ▸ hnd)
          (fun u hu => hstep.2 ▸ hsub u (hstep.1 ▸ hu))
      by_cases h3 : pyStrip r ∈ persisted
      · have hstep := newsStep_reject persisted st r (Or.inr (Or.inr h3))
        exact ih _ (hstep.1 ▸ hnd)
          (fun u hu => hstep.2 ▸ hsub u (hstep.1 ▸ hu))
      · have hstep := newsStep_admit persisted st r h1 h2 h3
        apply ih _
        · rw [hstep.1]
          simp only [List.nodup_append, List.nodup_cons, List.nodup_nil]
          refine ⟨hnd, ⟨by simp, by simp⟩, ?_⟩
          intro u hu hmem
          rcases List.mem_singleton.mp hmem with h
          exact h2 (h ▸ hsub u hu)
        · intro u hu
          rw [hstep.1] at hu
          rw [hstep.2]
          rcases List.mem_append.mp hu with h | h
          · exact List.mem_cons_of_mem _ (hsub u h)
          · rcases List.mem_singleton.mp h with h
            exact h ▸ List.mem_cons_self _ _

theorem newsScan_append (persisted a b : List String) :
    ∀ st, newsScan persisted (a ++ b) st
      = newsScan persisted b (newsScan persisted a st) := by
  induction a with
  | nil => intro st; simp [newsScan]
  | cons r rs ih =>
      intro st
      rw [List.cons_append, newsScan_cons, newsScan_cons, ih]

/-- C3 counterexample: with the default per-run cap of 10 provider rows,
a feed of k = 11 already-persisted URLs followed by m = 1 new URL admits
0 rows, not m = 1 — the cap truncates the feed before the dedup scan
runs, so the admitted count does depend on k. -/
theorem news_dedup_cap_counterexample :
    (collect_news_run ((List.range 11).map (fun i => "p" ++ toString i)) 10
      (((List.range 11).map (fun i => "p" ++ toString i)) ++ ["fresh"])).admitted
      = [] := by decide

/-- C3 (amended): within one news-collection run over a feed of k
already-persisted URLs followed by m new URLs, provided the whole feed
fits inside the per-run processing cap (`max_process_count`), exactly
the m new URLs are admitted for upsert, in feed order, regardless of k;
and over any feed whatsoever no URL is admitted more than once within
the run. -/
theorem news_dedup_admits_new (persisted ks ms : List String) (cap : Nat)
    (hks : ∀ u ∈ ks, pyStrip u ∈ persisted)
    (hms : ∀ u ∈ ms, pyStrip u ∉ persisted ∧ pyStrip u ≠ "")
    (hnodup : (ms.map pyStrip).Nodup)
    (hcap : ks.length + ms.length ≤ cap) :
    (collect_news_run persisted cap (ks ++ ms)).admitted = ms.map pyStrip
    ∧ (∀ feed, ((collect_news_run persisted cap feed).admitted).Nodup) := by
  constructor
  · unfold collect_news_run
    rw [List.take_of_length_le (by simpa using hcap), newsScan_append]
    have hrej := newsScan_reject_phase persisted ks initNewsScanState hks
    have hadm := newsScan_admit_phase persisted ms
      (newsScan persisted ks initNewsScanState) hms
      (fun v _ => by rw [hrej.2]; simp [initNewsScanState]) hnodup
    rw [hadm, hrej.1]
    simp [initNewsScanState]
  · intro feed
    unfold collect_news_run
    exact newsScan_admitted_nodup persisted _ _
      (by simp [initNewsScanState]) (by simp [initNewsScanState])

theorem news_dedup_admits_new_witness :
    (collect_news_run ["a", "b"] 10 (["a", "b"] ++ ["c", "d"])).admitted
      = ["c", "d"].map pyStrip
    ∧ ((collect_news_run ["a", "b"] 10 ["x", "x"]).admitted).Nodup := by
  have h := news_dedup_admits_new ["a", "b"] ["a", "b"] ["c", "d"] 10
    (by decide) (by decide) (by decide) (by decide)
  exact ⟨h.1, h.2 ["x", "x"]⟩

set_option maxRecDepth 8000 in
/-- C4: the news collector never stops scanning early, contrary to the
claim (and to the source's own comment and log message at the break):
the early-exit condition `duplicate_count > 100 and new_news_count == 0`
is evaluated only immediately after a new item was admitted, where
`new_news_count ≥ 1`, so it can never hold, and every row of the
cap-truncated feed is scanned.  Concretely, a run over 150
already-persisted URLs with the cap at 150 scans all 150 rows, counts
150 duplicates with zero admits, and does not stop after the claimed
100 consecutive rejects. -/
theorem news_early_exit_never_fires :
    (∀ persisted cap feed,
      (collect_news_run persisted cap feed).scanned = (feed.take cap).length)
    ∧ (collect_news_run ((List.range 150).map (fun i => "u" ++ toString i)) 150
        ((List.range 150).map (fun i => "u" ++ toString i))).scanned = 150
    ∧ (collect_news_run ((List.range 150).map (fun i => "u" ++ toString i)) 150
        ((List.range 150).map (fun i => "u" ++ toString i))).dupCount = 150
    ∧ (collect_news_run ((List.range 150).map (fun i => "u" ++ toString i)) 150
        ((List.range 150).map (fun i => "u" ++ toString i))).admitted = [] := by
  have hgen : ∀ persisted cap feed,
      (collect_news_run persisted cap feed).scanned = (feed.take cap).length := by
    intro persisted cap feed
    unfold collect_news_run
    rw [newsScan_scanned]
    simp [initNewsScanState]
  refine ⟨hgen, ?_, by decide, by decide⟩
  rw [hgen]
  simp

end AkShell
